import Mathlib

/-!
Shallow embedding of the multimedia file server (src/index.js): the range
request handling shared by GET /video and GET /download/:filename, the
POST /download-zip archive handler, the POST /upload size checks and
single-response plumbing, the DELETE /files/:filename handler, and the
path joining used to resolve the :filename parameter against the uploads
directory.
-/

namespace MMFS

/-- File contents are modelled as lists of bytes (numbers). -/
abbrev Byte := Nat

/-- A parsed Range header `bytes=<start>-<end?>`: in the source,
`start = parseInt(parts[0], 10)` and the end part is optional
(`parts[1] ? parseInt(parts[1], 10) : fileSize - 1`). -/
structure RangeHeader where
  start : Nat
  endPart : Option Nat
deriving DecidableEq, Repr

/-- The end of the requested interval, as computed in the handlers:
`const end = parts[1] ? parseInt(parts[1], 10) : fileSize - 1`. -/
def resolveEnd (fileSize : Nat) (r : RangeHeader) : Nat :=
  match r.endPart with
  | some e => e
  | none => fileSize - 1

/-- The observable part of a streamed HTTP response: status code, the
Content-Range and Content-Length headers when set, and the body bytes
that are streamed from the file (error JSON bodies are not file bytes
and are not modelled as `body`). -/
structure StreamResponse where
  status : Nat
  contentRange : Option String
  contentLength : Option Nat
  body : List Byte
deriving DecidableEq, Repr

/-- Core of the GET /video and GET /download/:filename handlers
(src/index.js lines 63-102 and 491-535), after the existence check:
given the file's bytes and the optional parsed Range header, produce the
response.  `fs.createReadStream(filePath, { start, end })` yields the
bytes of the file from offset `start` through offset `end` inclusive,
modelled as `(file.drop start).take (e + 1 - start)`. -/
def serveFile (file : List Byte) (range : Option RangeHeader) : StreamResponse :=
  let fileSize := file.length
  match range with
  | some r =>
      let s := r.start
      let e := resolveEnd fileSize r
      if s ≥ fileSize ∨ e ≥ fileSize then
        { status := 416, contentRange := none, contentLength := none, body := [] }
      else
        let chunkSize := e - s + 1
        { status := 206
          contentRange := some ("bytes " ++ toString s ++ "-" ++ toString e ++ "/" ++ toString fileSize)
          contentLength := some chunkSize
          body := (file.drop s).take (e + 1 - s) }
  | none =>
      { status := 200, contentRange := none, contentLength := some fileSize, body := file }

/-- GET /video (src/index.js lines 27-103): 404 when the video file does
not exist, otherwise serve it with range support. -/
def videoHandler (fsFile : Option (List Byte)) (range : Option RangeHeader) : StreamResponse :=
  match fsFile with
  | none => { status := 404, contentRange := none, contentLength := none, body := [] }
  | some file => serveFile file range

/-- The uploads directory, modelled as an association list from filename
to file contents. -/
abbrev FileSystem := List (String × List Byte)

/-- The check `fs.existsSync(path.join(uploadDir, name))`. -/
def fsExists (fs : FileSystem) (name : String) : Bool :=
  fs.any (fun p => p.1 == name)

/-- The bytes of the named file (the file read by `createReadStream` /
`archive.file`); `[]` when absent. -/
def fsRead (fs : FileSystem) (name : String) : List Byte :=
  match fs.find? (fun p => p.1 == name) with
  | some p => p.2
  | none => []

/-- GET /download/:filename (src/index.js lines 477-540): 404 when the
file does not exist, otherwise the same range logic as /video. -/
def downloadHandler (fs : FileSystem) (filename : String) (range : Option RangeHeader) :
    StreamResponse :=
  if fsExists fs filename then serveFile (fsRead fs filename) range
  else { status := 404, contentRange := none, contentLength := none, body := [] }

/-- A partition of `[0, totalSize-1]` into contiguous 0-based chunks,
given by the list of chunk lengths: the chunk of length `n` at offset
`off` is requested as the inclusive range `(off, off + n - 1)`. -/
def chunkRequests : List Nat → Nat → List (Nat × Nat)
  | [], _ => []
  | n :: rest, off => (off, off + n - 1) :: chunkRequests rest (off + n)

/-- Concatenation, in order, of the bodies of the ranged responses for
the given list of `(start, end)` requests. -/
def concatBodies (file : List Byte) (reqs : List (Nat × Nat)) : List Byte :=
  (reqs.map (fun p => (serveFile file (some ⟨p.1, some p.2⟩)).body)).flatten

/-- The parsed `filenames` field of the POST /download-zip JSON body:
absent (or otherwise falsy), present but not an array, or an array of
filename strings. -/
inductive ZipBody
  | absent
  | notArray
  | arr (filenames : List String)

/-- The observable POST /download-zip response: the status code and,
when an archive is streamed, its ordered entries (entry name together
with the bytes the entry decompresses to — `archive.file(filePath,
{ name: filename })` stores the file's bytes under that name).
`entries = none` means no archive construction was begun. -/
structure ZipResponse where
  status : Nat
  entries : Option (List (String × List Byte))
deriving DecidableEq, Repr

/-- POST /download-zip handler (src/index.js lines 545-651): reject a
missing / non-array / empty filenames list with 400, reject more than
100 filenames with 400, keep only the filenames that resolve to existing
files (in request order), reject with 404 when none remain, and
otherwise stream a 200 archive holding one entry per kept filename. -/
def downloadZip (fs : FileSystem) (body : ZipBody) : ZipResponse :=
  match body with
  | .absent => { status := 400, entries := none }
  | .notArray => { status := 400, entries := none }
  | .arr filenames =>
    if filenames.length = 0 then { status := 400, entries := none }
    else if filenames.length > 100 then { status := 400, entries := none }
    else
      let validFiles := filenames.filter (fun n => fsExists fs n)
      if validFiles.length = 0 then { status := 404, entries := none }
      else { status := 200, entries := some (validFiles.map (fun n => (n, fsRead fs n))) }

/-- The 100 MB per-file limit configured for POST /upload
(`fileSize: 100 * 1024 * 1024` in src/index.js line 119, repeated in the
explicit size check at line 154). -/
def maxFileSize : Nat := 100 * 1024 * 1024

/-- The JS blank test `!filename || filename.trim() === ''`: the
filename is empty or consists of whitespace only. -/
def isBlank (s : String) : Bool := s.data.all Char.isWhitespace

/-- What the busboy (v1) file event reports about a part.  The info
object is `{filename, encoding, mimeType}`; it carries no size field,
so the `fileInfo.size` read at src/index.js line 154 yields undefined.
The model keeps the field as an `Option Nat` so that the source's check
can be embedded as written, with `none` for the undefined value busboy
actually delivers. -/
structure FileInfo where
  filename : String
  size : Option Nat
deriving DecidableEq, Repr

/-- The file-part info busboy v1 actually delivers at runtime: the
client-supplied filename and no size field. -/
def busboyFileInfo (filename : String) : FileInfo :=
  { filename := filename, size := none }

/-- Outcome of the POST /upload file-part handling: the response status
and the file contents left in the uploads directory (`none` when no
file was written). -/
structure UploadResult where
  status : Nat
  written : Option (List Byte)
deriving DecidableEq, Repr

/-- POST /upload handling of one file part whose write succeeds
(src/index.js lines 139-253; success is reported by the finish path at
lines 256-289): a blank filename is rejected with 400 before any write
stream is created; the size check at line 154
(`fileInfo.size && fileInfo.size > 100 * 1024 * 1024`) fires only when
the info object reports a nonzero size over the limit (undefined and 0
are falsy); otherwise the part's stream is piped to the write stream.
busboy's `limits.fileSize: 100 * 1024 * 1024` (line 119) truncates the
incoming stream at the limit, and the code installs no `limit` listener,
so at most `maxFileSize` bytes are written and the finish path reports
200 success for the written file. -/
def handleFilePart (info : FileInfo) (content : List Byte) : UploadResult :=
  if isBlank info.filename then { status := 400, written := none }
  else if (match info.size with
           | some sz => sz != 0 && decide (sz > maxFileSize)
           | none => false) then { status := 400, written := none }
  else { status := 200, written := some (content.take maxFileSize) }

/-- A POST /upload request carrying one file part with the given bytes,
as processed at runtime: busboy's file event supplies no size field. -/
def uploadRequest (filename : String) (content : List Byte) : UploadResult :=
  handleFilePart (busboyFileInfo filename) content

/-- The asynchronous events of one POST /upload request whose handlers
may try to send the terminal response (src/index.js lines 125-331).
`writeFinishOk` is the write stream finish with a successful `fs.stat`,
which only records `uploadedFile`; `busboyFinishTick` is the body of the
`setTimeout` scheduled by the busboy finish handler, which sends 500,
400 or the success response depending on the recorded state. -/
inductive UploadEvent
  | uploadTimeout
  | fileBlankName
  | fileTooLarge
  | writeFinishOk
  | statError
  | writeError
  | fileStreamError
  | busboyFinishTick
  | busboyError
  | reqError
deriving DecidableEq, Repr

/-- The per-request mutable state of the POST /upload handler: the
`isResponseSent` guard, the `uploadError` and `uploadedFile` markers,
and the list of status codes actually written to the client. -/
structure UploadState where
  isResponseSent : Bool
  uploadError : Bool
  uploadedFile : Bool
  responses : List Nat
deriving DecidableEq, Repr

/-- The state at the start of a POST /upload request. -/
def startUploadState : UploadState :=
  { isResponseSent := false, uploadError := false, uploadedFile := false, responses := [] }

/-- The guard pattern `if (!isResponseSent) { isResponseSent = true;
res.status(code).json(...) }` shared by every response site of the
POST /upload handler. -/
def sendIfClear (s : UploadState) (code : Nat) : UploadState :=
  if s.isResponseSent then s
  else { s with isResponseSent := true, responses := s.responses ++ [code] }

/-- One event handler firing: each branch mirrors the corresponding
callback in src/index.js (timeout 408 at line 133, blank filename 400
at line 148, size 400 at line 159, stat error 500 at line 188, write
error 500 at line 225, file stream error 500 at line 240, the finish
tick 500/400/success at lines 261-288, busboy error 500 at line 297,
request error 500 at line 316). -/
def stepUpload (s : UploadState) (e : UploadEvent) : UploadState :=
  match e with
  | .uploadTimeout => sendIfClear s 408
  | .fileBlankName => sendIfClear { s with uploadError := true } 400
  | .fileTooLarge => sendIfClear { s with uploadError := true } 400
  | .writeFinishOk => { s with uploadedFile := true }
  | .statError => sendIfClear { s with uploadError := true } 500
  | .writeError => sendIfClear { s with uploadError := true } 500
  | .fileStreamError => sendIfClear { s with uploadError := true } 500
  | .busboyFinishTick =>
      if s.uploadError then sendIfClear s 500
      else if s.uploadedFile then sendIfClear s 200
      else sendIfClear s 400
  | .busboyError => sendIfClear s 500
  | .reqError => sendIfClear s 500

/-- The upload request's event handlers firing in an arbitrary order. -/
def runUpload (evts : List UploadEvent) : UploadState :=
  evts.foldl stepUpload startUploadState

/-- The list of responses matches the `isResponseSent` guard: none
before a response is sent, exactly one afterwards. -/
def respInv (s : UploadState) : Prop :=
  s.responses.length = if s.isResponseSent then 1 else 0

/-- The check `filename.endsWith('.meta')` used by the GET /files
listing, structural on the character list. -/
def endsWithMeta (n : String) : Bool :=
  List.isPrefixOf ".meta".data.reverse n.data.reverse

/-- GET /files listing (src/index.js lines 404-449): `readdirSync` of
the uploads directory, excluding the `.meta` sidecar files. -/
def listFiles (fs : FileSystem) : List String :=
  (fs.map Prod.fst).filter (fun n => ! endsWithMeta n)

/-- DELETE /files/:filename handler (src/index.js lines 665-688): 404
when the file does not exist; otherwise unlink the file, unlink its
`.meta` sidecar when present, and respond 200.  Returns the status and
the uploads directory after the operation. -/
def deleteFile (fs : FileSystem) (filename : String) : Nat × FileSystem :=
  if fsExists fs filename then
    let fs1 := fs.filter (fun p => ! (p.1 == filename))
    let metaName := filename ++ ".meta"
    let fs2 := if fsExists fs1 metaName then fs1.filter (fun p => ! (p.1 == metaName)) else fs1
    (200, fs2)
  else (404, fs)

/-- One split step of JS `filename.split('/')`: `cur` holds the current
segment's characters in reverse. -/
def splitSlashAux : List Char → List Char → List String
  | cur, [] => [String.mk cur.reverse]
  | cur, c :: rest =>
      if c = '/' then String.mk cur.reverse :: splitSlashAux [] rest
      else splitSlashAux (c :: cur) rest

/-- The slash-separated segments of a path string. -/
def splitSlash (s : String) : List String := splitSlashAux [] s.data

/-- Node path normalization over segments, as performed by `path.join`:
`..` removes the previous segment, `.` and empty segments disappear,
any other segment is appended. -/
def normalizeSegs (segs : List String) : List String :=
  segs.foldl (fun acc s =>
    if s = ".." then acc.dropLast
    else if s = "." ∨ s = "" then acc
    else acc ++ [s]) []

/-- The path computed by `path.join(__dirname, 'uploads', filename)` in
GET /download/:filename (line 480) and DELETE /files/:filename
(line 668): the raw parameter's segments appended to the uploads
directory and normalized. -/
def joinUploads (uploadsDir : List String) (filename : String) : List String :=
  normalizeSegs (uploadsDir ++ splitSlash filename)

/-- Whether the resolved path lies inside the uploads directory. -/
def staysInside (uploadsDir resolved : List String) : Bool :=
  uploadsDir.isPrefixOf resolved

end MMFS

namespace MMFS

/-- Claim C1: for every file and every parsed range `(start, end)` with
`0 <= start <= end < totalSize`, the handler responds 206 with
`Content-Range: bytes {start}-{end}/{totalSize}`, `Content-Length`
equal to `end - start + 1`, and a body of exactly `end - start + 1`
bytes that are the bytes of the file at offsets `start` through `end`. -/
theorem serveFile_valid_range (file : List Byte) (s e : Nat)
    (hse : s ≤ e) (hlt : e < file.length) :
    (serveFile file (some ⟨s, some e⟩)).status = 206 ∧
    (serveFile file (some ⟨s, some e⟩)).contentRange =
      some ("bytes " ++ toString s ++ "-" ++ toString e ++ "/" ++ toString file.length) ∧
    (serveFile file (some ⟨s, some e⟩)).contentLength = some (e - s + 1) ∧
    (serveFile file (some ⟨s, some e⟩)).body.length = e - s + 1 ∧
    ∀ i : Nat, i < e - s + 1 → (serveFile file (some ⟨s, some e⟩)).body[i]? = file[s + i]? := by
  have hcond : ¬ (s ≥ file.length ∨ e ≥ file.length) := by
    push_neg
    exact ⟨lt_of_le_of_lt hse hlt, hlt⟩
  simp only [serveFile, resolveEnd, hcond, if_false]
  refine ⟨trivial, trivial, trivial, ?_, ?_⟩
  · simp only [List.length_take, List.length_drop]
    omega
  · intro i hi
    have h1 : i < e + 1 - s := by omega
    rw [List.getElem?_take, if_pos h1, List.getElem?_drop]

theorem serveFile_valid_range_witness :
    (2 : Nat) ≤ 4 ∧ (4 : Nat) < ([10, 11, 12, 13, 14, 15] : List Byte).length ∧
    (serveFile [10, 11, 12, 13, 14, 15] (some ⟨2, some 4⟩)).status = 206 ∧
    (serveFile [10, 11, 12, 13, 14, 15] (some ⟨2, some 4⟩)).body.length = 3 := by
  have h := serveFile_valid_range [10, 11, 12, 13, 14, 15] 2 4 (by decide) (by decide)
  exact ⟨by decide, by decide, h.1, h.2.2.2.1⟩

/-- Claim C2: for every ranged request against an existing file, when
the parsed start is at least the file size or the resolved end is at
least the file size, the handler responds 416 and streams no body bytes
of the file. -/
theorem serveFile_invalid_range (file : List Byte) (r : RangeHeader)
    (h : r.start ≥ file.length ∨ resolveEnd file.length r ≥ file.length) :
    (serveFile file (some r)).status = 416 ∧ (serveFile file (some r)).body = [] := by
  simp only [serveFile, if_pos h]
  exact ⟨trivial, trivial⟩

theorem serveFile_invalid_range_witness :
    ((⟨7, some 1⟩ : RangeHeader).start ≥ ([1, 2, 3] : List Byte).length ∨
      resolveEnd ([1, 2, 3] : List Byte).length ⟨7, some 1⟩ ≥ ([1, 2, 3] : List Byte).length) ∧
    (serveFile [1, 2, 3] (some ⟨7, some 1⟩)).status = 416 ∧
    (serveFile [1, 2, 3] (some ⟨7, some 1⟩)).body = [] :=
  ⟨by decide, serveFile_invalid_range [1, 2, 3] ⟨7, some 1⟩ (by decide)⟩

/-- Claim C3: the source range validation only checks
`start >= fileSize` and `end >= fileSize`; for a range with
`start > end` and both below the file size (here `bytes=5-2` against a
10-byte file) the handler does not respond 416 but proceeds to write a
206 status, contradicting the claimed rejection of `start > end`. -/
theorem serveFile_start_gt_end_not_rejected :
    (serveFile (List.range 10) (some ⟨5, some 2⟩)).status = 206 ∧
    (serveFile (List.range 10) (some ⟨5, some 2⟩)).status ≠ 416 := by decide

@[simp]
theorem resolveEnd_some (fileSize s e : Nat) : resolveEnd fileSize ⟨s, some e⟩ = e := rfl

theorem concatBodies_chunks_drop (file : List Byte) (sizes : List Nat) (off : Nat)
    (hpos : ∀ n ∈ sizes, 0 < n) (hsum : off + sizes.sum = file.length) :
    concatBodies file (chunkRequests sizes off) = file.drop off := by
  induction sizes generalizing off with
  | nil =>
      simp only [List.sum_nil, Nat.add_zero] at hsum
      simp [concatBodies, chunkRequests, List.drop_eq_nil_of_le (le_of_eq hsum.symm)]
  | cons n rest ih =>
      have hn : 0 < n := hpos n (List.mem_cons_self n rest)
      have hrest : ∀ m ∈ rest, 0 < m := fun m hm => hpos m (List.mem_cons_of_mem n hm)
      have hsum' : off + n + rest.sum = file.length := by
        simp only [List.sum_cons] at hsum
        omega
      have hend : off + n - 1 < file.length := by omega
      have hcond : ¬ (off ≥ file.length ∨ resolveEnd file.length ⟨off, some (off + n - 1)⟩ ≥ file.length) := by
        rw [resolveEnd_some]
        omega
      have hbody : (serveFile file (some ⟨off, some (off + n - 1)⟩)).body =
          (file.drop off).take n := by
        simp only [serveFile, hcond, if_false]
        congr 1
        rw [resolveEnd_some]
        omega
      calc concatBodies file (chunkRequests (n :: rest) off)
          = (serveFile file (some ⟨off, some (off + n - 1)⟩)).body ++
              concatBodies file (chunkRequests rest (off + n)) := by
            simp [concatBodies, chunkRequests]
        _ = (file.drop off).take n ++ (file.drop off).drop n := by
            rw [hbody, ih (off + n) hrest hsum', List.drop_drop]
        _ = file.drop off := List.take_append_drop n (file.drop off)

/-- Claim C4: for every file and every partition of `[0, totalSize-1]`
into contiguous 0-based chunks (positive chunk lengths summing to the
file size), concatenating the bodies of the ranged responses for those
chunks, in order, reconstructs the original file byte-for-byte. -/
theorem range_partition_roundtrip (file : List Byte) (sizes : List Nat)
    (hpos : ∀ n ∈ sizes, 0 < n) (hsum : sizes.sum = file.length) :
    concatBodies file (chunkRequests sizes 0) = file := by
  have h := concatBodies_chunks_drop file sizes 0 hpos (by simpa using hsum)
  simpa using h

theorem range_partition_roundtrip_witness :
    (∀ n ∈ ([1, 3] : List Nat), 0 < n) ∧
    ([1, 3] : List Nat).sum = ([10, 20, 30, 40] : List Byte).length ∧
    concatBodies [10, 20, 30, 40] (chunkRequests [1, 3] 0) = [10, 20, 30, 40] :=
  ⟨by decide, by decide, range_partition_roundtrip [10, 20, 30, 40] [1, 3] (by decide) (by decide)⟩

/-- Claim C5 is false as stated at duplicate requests: for the mixed
list ["a", "a", "zzz"] against an uploads directory holding just "a",
the archive holds two entries for the one existing requested file "a",
not exactly one. -/
theorem downloadZip_duplicate_entries :
    fsExists [("a", [1])] "a" = true ∧
    fsExists [("a", [1])] "zzz" = false ∧
    ((downloadZip [("a", [1])] (.arr ["a", "a", "zzz"])).entries.getD []).countP
      (fun p => p.1 == "a") = 2 ∧
    ¬ ((downloadZip [("a", [1])] (.arr ["a", "a", "zzz"])).entries.getD []).countP
      (fun p => p.1 == "a") = 1 := by decide

/-- Claim C5 amended: for every POST /download-zip request whose
filenames list mixes existing and nonexistent files (nonempty, within
the 100-file ceiling, with at least one existing), the response is 200
(the nonexistent names never fail the batch), the archive entries are
exactly the existing requested filenames in the caller's order, each
entry's bytes are identical to its source file, each existing requested
filename has one entry per occurrence in the request (so exactly one
for a name listed once), and a nonexistent name contributes no
entry. -/
theorem downloadZip_mixed_batch (fs : FileSystem) (filenames : List String)
    (hne : filenames ≠ []) (hle : filenames.length ≤ 100)
    (hex : ∃ n ∈ filenames, fsExists fs n = true) :
    (downloadZip fs (.arr filenames)).status = 200 ∧
    ((downloadZip fs (.arr filenames)).entries.getD []).map Prod.fst =
      filenames.filter (fun n => fsExists fs n) ∧
    (∀ p ∈ (downloadZip fs (.arr filenames)).entries.getD [], p.2 = fsRead fs p.1) ∧
    (∀ n : String, fsExists fs n = true →
      ((downloadZip fs (.arr filenames)).entries.getD []).countP (fun p => p.1 == n) =
        filenames.count n) ∧
    (∀ n : String, fsExists fs n = false →
      ((downloadZip fs (.arr filenames)).entries.getD []).countP (fun p => p.1 == n) = 0) := by
  obtain ⟨m, hm, hmex⟩ := hex
  have hlen0 : ¬ filenames.length = 0 := by
    simpa [List.length_eq_zero] using hne
  have hgt : ¬ filenames.length > 100 := not_lt.mpr hle
  have hmem : m ∈ filenames.filter (fun n => fsExists fs n) :=
    List.mem_filter.mpr ⟨hm, hmex⟩
  have hvne : ¬ (filenames.filter (fun n => fsExists fs n)).length = 0 := by
    rw [List.length_eq_zero]
    exact List.ne_nil_of_mem hmem
  have hcount : ∀ n : String,
      ((filenames.filter (fun x => fsExists fs x)).map
        (fun x => (x, fsRead fs x))).countP (fun p => p.1 == n) =
      (filenames.filter (fun x => fsExists fs x)).count n := by
    intro n
    rw [List.countP_map]
    rfl
  simp only [downloadZip, if_neg hlen0, if_neg hgt, if_neg hvne, Option.getD_some]
  refine ⟨trivial, ?_, ?_, ?_, ?_⟩
  · rw [List.map_map]
    exact List.map_id'' (fun _ => rfl) _
  · intro p hp
    obtain ⟨n, _, rfl⟩ := List.mem_map.mp hp
    rfl
  · intro n hnex
    rw [hcount n, List.count_filter hnex]
  · intro n hnex
    rw [hcount n, List.count_eq_zero]
    intro hmem'
    have := (List.mem_filter.mp hmem').2
    rw [hnex] at this
    exact Bool.false_ne_true this

theorem downloadZip_mixed_batch_witness :
    (["b", "zzz", "a"] : List String) ≠ [] ∧
    (["b", "zzz", "a"] : List String).length ≤ 100 ∧
    (∃ n ∈ (["b", "zzz", "a"] : List String), fsExists [("a", [1, 2]), ("b", [3])] n = true) ∧
    (downloadZip [("a", [1, 2]), ("b", [3])] (.arr ["b", "zzz", "a"])).status = 200 ∧
    ((downloadZip [("a", [1, 2]), ("b", [3])] (.arr ["b", "zzz", "a"])).entries.getD []).map
      Prod.fst = ["b", "a"] := by
  have h := downloadZip_mixed_batch [("a", [1, 2]), ("b", [3])] ["b", "zzz", "a"]
    (by decide) (by decide) (by decide)
  exact ⟨by decide, by decide, by decide, h.1, by rw [h.2.1]; decide⟩

/-- Claim C6: for every POST /download-zip request, before the streamed
response is opened: a missing, non-array, or empty filenames list yields
status 400; a list of more than 100 filenames yields status 400; and a
nonempty list within the ceiling in which no filename resolves to an
existing file yields status 404; in all cases no archive construction
begins (`entries = none`, no body bytes of any file are sent). -/
theorem downloadZip_prechecks (fs : FileSystem) (l : List String) :
    (downloadZip fs .absent).status = 400 ∧ (downloadZip fs .absent).entries = none ∧
    (downloadZip fs .notArray).status = 400 ∧ (downloadZip fs .notArray).entries = none ∧
    (downloadZip fs (.arr [])).status = 400 ∧ (downloadZip fs (.arr [])).entries = none ∧
    (l.length > 100 →
      (downloadZip fs (.arr l)).status = 400 ∧ (downloadZip fs (.arr l)).entries = none) ∧
    (l ≠ [] → l.length ≤ 100 → (∀ n ∈ l, fsExists fs n = false) →
      (downloadZip fs (.arr l)).status = 404 ∧ (downloadZip fs (.arr l)).entries = none) := by
  refine ⟨rfl, rfl, rfl, rfl, rfl, rfl, ?_, ?_⟩
  · intro hgt
    have hlen0 : ¬ l.length = 0 := by omega
    simp only [downloadZip, if_neg hlen0, if_pos hgt]
    exact ⟨trivial, trivial⟩
  · intro hne hle hnone
    have hlen0 : ¬ l.length = 0 := by
      simpa [List.length_eq_zero] using hne
    have hgt : ¬ l.length > 100 := not_lt.mpr hle
    have hfilter : l.filter (fun n => fsExists fs n) = [] := by
      rw [List.filter_eq_nil_iff]
      intro n hn
      rw [hnone n hn]
      exact Bool.false_ne_true
    have hvz : (l.filter (fun n => fsExists fs n)).length = 0 := by
      rw [hfilter]
      rfl
    simp only [downloadZip, if_neg hlen0, if_neg hgt, if_pos hvz]
    exact ⟨trivial, trivial⟩

theorem downloadZip_prechecks_witness :
    (downloadZip [("a", [1])] .absent).status = 400 ∧
    ((List.replicate 101 "x").length > 100 ∧
      (downloadZip [("a", [1])] (.arr (List.replicate 101 "x"))).status = 400) ∧
    ((∀ n ∈ (["b"] : List String), fsExists [("a", [1])] n = false) ∧
      (downloadZip [("a", [1])] (.arr ["b"])).status = 404) := by
  refine ⟨(downloadZip_prechecks [("a", [1])] []).1, ⟨by decide, ?_⟩, ⟨by decide, ?_⟩⟩
  · exact ((downloadZip_prechecks [("a", [1])] (List.replicate 101 "x")).2.2.2.2.2.2.1
      (by decide)).1
  · exact ((downloadZip_prechecks [("a", [1])] ["b"]).2.2.2.2.2.2.2
      (by decide) (by decide) (by decide)).1

/-- Claim C7 is contradicted by the code: for an upload one byte over
the 100 MB limit, busboy's file event supplies no size (so the check at
src/index.js line 154 never fires) and `limits.fileSize` truncates the
incoming stream at the limit, so the handler writes the truncated
100 MB file, reports 200 success, and leaves that partial file in the
uploads directory — not the claimed 4xx abort with no partial file.
An upload of exactly 100 MB does go through whole. -/
theorem upload_over_limit_succeeds_truncated :
    (uploadRequest "big.bin" (List.replicate (maxFileSize + 1) 0)).status = 200 ∧
    (uploadRequest "big.bin" (List.replicate (maxFileSize + 1) 0)).written =
      some (List.replicate maxFileSize 0) ∧
    (uploadRequest "exact.bin" (List.replicate maxFileSize 0)).status = 200 ∧
    (uploadRequest "exact.bin" (List.replicate maxFileSize 0)).written =
      some (List.replicate maxFileSize 0) := by
  have hbl : isBlank "big.bin" = false := by decide
  have hbl' : isBlank "exact.bin" = false := by decide
  simp only [uploadRequest, busboyFileInfo, handleFilePart, hbl, hbl', Bool.false_eq_true,
    if_false, List.take_replicate]
  refine ⟨trivial, ?_, trivial, ?_⟩
  · congr 2
  · congr 2

theorem sendIfClear_inv (s : UploadState) (c : Nat) (h : respInv s) :
    respInv (sendIfClear s c) := by
  unfold respInv at h ⊢
  by_cases hs : s.isResponseSent = true
  · simpa [sendIfClear, hs] using h
  · have hs' : s.isResponseSent = false := Bool.eq_false_iff.mpr hs
    simp only [hs', Bool.false_eq_true, if_false] at h
    simp [sendIfClear, hs', h]

theorem sendIfClear_sent (s : UploadState) (c : Nat) :
    (sendIfClear s c).isResponseSent = true := by
  unfold sendIfClear
  split_ifs with hs
  · exact hs
  · rfl

theorem stepUpload_inv (s : UploadState) (e : UploadEvent) (h : respInv s) :
    respInv (stepUpload s e) := by
  have h' : ∀ b b' : Bool, respInv { s with uploadError := b, uploadedFile := b' } := by
    intro b b'
    exact h
  cases e <;> simp only [stepUpload] <;>
    first
      | exact sendIfClear_inv _ _ h
      | exact sendIfClear_inv _ _ (h' _ _)
      | exact h
      | (split_ifs <;> exact sendIfClear_inv _ _ h)

theorem stepUpload_sent (s : UploadState) (e : UploadEvent) (h : s.isResponseSent = true) :
    (stepUpload s e).isResponseSent = true := by
  cases e <;> simp only [stepUpload] <;>
    first
      | exact sendIfClear_sent _ _
      | exact h
      | (split_ifs <;> exact sendIfClear_sent _ _)

theorem stepUpload_sent_of_respond (s : UploadState) (e : UploadEvent)
    (he : e ≠ UploadEvent.writeFinishOk) :
    (stepUpload s e).isResponseSent = true := by
  cases e <;> simp only [stepUpload] <;>
    first
      | exact absurd rfl he
      | exact sendIfClear_sent _ _
      | (split_ifs <;> exact sendIfClear_sent _ _)

theorem foldl_stepUpload_inv (evts : List UploadEvent) (s : UploadState) (h : respInv s) :
    respInv (evts.foldl stepUpload s) := by
  induction evts generalizing s with
  | nil => exact h
  | cons a rest ih => exact ih (stepUpload s a) (stepUpload_inv s a h)

theorem foldl_stepUpload_sent (evts : List UploadEvent) (s : UploadState)
    (h : s.isResponseSent = true) :
    (evts.foldl stepUpload s).isResponseSent = true := by
  induction evts generalizing s with
  | nil => exact h
  | cons a rest ih => exact ih (stepUpload s a) (stepUpload_sent s a h)

theorem foldl_stepUpload_sent_of_mem (evts : List UploadEvent) (s : UploadState)
    (e : UploadEvent) (he : e ∈ evts) (hne : e ≠ UploadEvent.writeFinishOk) :
    (evts.foldl stepUpload s).isResponseSent = true := by
  induction evts generalizing s with
  | nil => cases he
  | cons a rest ih =>
      rcases List.mem_cons.mp he with rfl | hmem
      · exact foldl_stepUpload_sent rest _ (stepUpload_sent_of_respond s e hne)
      · exact ih (stepUpload s a) hmem

/-- Claim C8: for every POST /upload request, whatever sequence of
error, finish, timeout and completion events fires and in whatever
order, at most one terminal HTTP response is written, and exactly one
as soon as any response-bearing event (any event other than a
successful write-finish) has fired — never two responses and never a
second status after the first. -/
theorem upload_single_response (evts : List UploadEvent) :
    (runUpload evts).responses.length ≤ 1 ∧
    ((∃ e ∈ evts, e ≠ UploadEvent.writeFinishOk) →
      (runUpload evts).responses.length = 1) := by
  have hinv : respInv (runUpload evts) :=
    foldl_stepUpload_inv evts startUploadState (by rfl)
  unfold respInv at hinv
  constructor
  · rw [hinv]
    split_ifs <;> omega
  · rintro ⟨e, he, hne⟩
    have hs : (runUpload evts).isResponseSent = true :=
      foldl_stepUpload_sent_of_mem evts startUploadState e he hne
    rw [hinv, if_pos hs]

theorem upload_single_response_witness :
    (∃ e ∈ [UploadEvent.busboyFinishTick, UploadEvent.uploadTimeout, UploadEvent.busboyError],
      e ≠ UploadEvent.writeFinishOk) ∧
    (runUpload [UploadEvent.busboyFinishTick, UploadEvent.uploadTimeout,
      UploadEvent.busboyError]).responses.length = 1 :=
  ⟨by decide,
    (upload_single_response [UploadEvent.busboyFinishTick, UploadEvent.uploadTimeout,
      UploadEvent.busboyError]).2 (by decide)⟩

theorem fsExists_filter_self (fs : FileSystem) (k : String) :
    fsExists (fs.filter (fun p => ! (p.1 == k))) k = false := by
  rw [fsExists, List.any_eq_false]
  intro x hx
  have h := (List.mem_filter.mp hx).2
  simp only [Bool.not_eq_eq_eq_not, Bool.not_true] at h
  simp [h]

theorem fsExists_filter_false (fs : FileSystem) (q : String × List Byte → Bool) (k : String)
    (h : fsExists fs k = false) : fsExists (fs.filter q) k = false := by
  rw [fsExists, List.any_eq_false] at h ⊢
  intro x hx
  exact h x (List.mem_filter.mp hx).1

theorem fsExists_of_mem_listFiles (fs : FileSystem) (n : String) (h : n ∈ listFiles fs) :
    fsExists fs n = true := by
  rw [listFiles] at h
  have hm := (List.mem_filter.mp h).1
  obtain ⟨p, hp, rfl⟩ := List.mem_map.mp hm
  rw [fsExists, List.any_eq_true]
  exact ⟨p, hp, by simp⟩

/-- Claim C9: for every DELETE /files/:filename request, if the named
file does not exist the response is 404 and the uploads directory is
unchanged; if it exists, the response is 200, the primary file and its
`.meta` sidecar (when present) are both gone, and a subsequent
GET /files listing no longer shows that file. -/
theorem deleteFile_spec (fs : FileSystem) (name : String) :
    (fsExists fs name = false → deleteFile fs name = (404, fs)) ∧
    (fsExists fs name = true →
      (deleteFile fs name).1 = 200 ∧
      fsExists (deleteFile fs name).2 name = false ∧
      fsExists (deleteFile fs name).2 (name ++ ".meta") = false ∧
      name ∉ listFiles (deleteFile fs name).2) := by
  constructor
  · intro h
    simp [deleteFile, h]
  · intro h
    have hnotin : ∀ fs' : FileSystem, fsExists fs' name = false → name ∉ listFiles fs' := by
      intro fs' hex hmem
      rw [fsExists_of_mem_listFiles fs' name hmem] at hex
      exact Bool.noConfusion hex
    have h1 : fsExists (fs.filter (fun p => ! (p.1 == name))) name = false :=
      fsExists_filter_self fs name
    by_cases hmeta :
        fsExists (fs.filter (fun p => ! (p.1 == name))) (name ++ ".meta") = true
    · have hres : deleteFile fs name =
          (200, (fs.filter (fun p => ! (p.1 == name))).filter
            (fun p => ! (p.1 == name ++ ".meta"))) := by
        simp [deleteFile, h, hmeta]
      rw [hres]
      refine ⟨rfl, ?_, ?_, ?_⟩
      · exact fsExists_filter_false _ _ name h1
      · exact fsExists_filter_self _ _
      · exact hnotin _ (fsExists_filter_false _ _ name h1)
    · have hmeta' : fsExists (fs.filter (fun p => ! (p.1 == name))) (name ++ ".meta") = false :=
        Bool.eq_false_iff.mpr hmeta
      have hres : deleteFile fs name = (200, fs.filter (fun p => ! (p.1 == name))) := by
        simp [deleteFile, h, hmeta']
      rw [hres]
      exact ⟨rfl, h1, hmeta', hnotin _ h1⟩

theorem deleteFile_spec_witness :
    fsExists [("a.bin", [1]), ("a.bin.meta", [2]), ("b.bin", [3])] "a.bin" = true ∧
    (deleteFile [("a.bin", [1]), ("a.bin.meta", [2]), ("b.bin", [3])] "a.bin").1 = 200 ∧
    "a.bin" ∉ listFiles (deleteFile [("a.bin", [1]), ("a.bin.meta", [2]), ("b.bin", [3])]
      "a.bin").2 ∧
    fsExists [("b.bin", [3])] "zzz" = false ∧
    deleteFile [("b.bin", [3])] "zzz" = (404, [("b.bin", [3])]) := by
  have h1 := (deleteFile_spec [("a.bin", [1]), ("a.bin.meta", [2]), ("b.bin", [3])] "a.bin").2
    (by decide)
  have h2 := (deleteFile_spec [("b.bin", [3])] "zzz").1 (by decide)
  exact ⟨by decide, h1.1, h1.2.2.2, by decide, h2⟩

/-- Claim C10 is false as stated: joining the uploads directory with the
raw parameter "../secret.txt" resolves to a path outside the uploads
directory — the handlers perform no sanitization of the :filename
parameter, so a parameter containing ".." segments escapes. -/
theorem joinUploads_escape :
    staysInside ["home", "app", "uploads"]
      (joinUploads ["home", "app", "uploads"] "../secret.txt") = false := by decide

/-- Claim C10 amended: only for a filename forming a single path segment
(no "/" separator) other than "..", "." and "" does the joined path stay
inside the uploads directory, extending it by exactly that segment; a
filename containing ".." segments can escape, as the handlers do not
sanitize the parameter. -/
theorem joinUploads_plain_segment (base : List String) (filename : String)
    (hbase : normalizeSegs base = base)
    (hseg : splitSlash filename = [filename])
    (hdd : filename ≠ "..") (hdot : filename ≠ ".") (hemp : filename ≠ "") :
    joinUploads base filename = base ++ [filename] ∧
    staysInside base (joinUploads base filename) = true := by
  have h1 : joinUploads base filename = base ++ [filename] := by
    rw [joinUploads, hseg, normalizeSegs, List.foldl_append]
    rw [show List.foldl (fun acc s =>
        if s = ".." then acc.dropLast
        else if s = "." ∨ s = "" then acc
        else acc ++ [s]) [] base = normalizeSegs base from rfl]
    rw [hbase]
    simp [hdd, hdot, hemp]
  refine ⟨h1, ?_⟩
  rw [h1, staysInside]
  exact List.isPrefixOf_iff_prefix.mpr (List.prefix_append base [filename])

theorem joinUploads_plain_segment_witness :
    normalizeSegs ["home", "app", "uploads"] = ["home", "app", "uploads"] ∧
    splitSlash "report.pdf" = ["report.pdf"] ∧
    joinUploads ["home", "app", "uploads"] "report.pdf" =
      ["home", "app", "uploads", "report.pdf"] ∧
    staysInside ["home", "app", "uploads"]
      (joinUploads ["home", "app", "uploads"] "report.pdf") = true := by
  have h := joinUploads_plain_segment ["home", "app", "uploads"] "report.pdf"
    (by decide) (by decide) (by decide) (by decide) (by decide)
  exact ⟨by decide, by decide, h.1, h.2⟩

end MMFS
